import Mathlib

/-!
A shallow embedding of the SQLite migration engine in `src/database.py`
(the module with the global connection `_conn` and the public operations
`init`, `status`, `set`, `reset`, `close`).

Modelling conventions:
* SQLite's user-visible data is abstracted by a type `υ`; execution of one
  trimmed SQL statement is a parameter
  `exec : υ → String → Except SqlError υ` (SQLite itself is an external
  library, not code of this repository).  A failing statement leaves the
  user state unchanged, as in SQLite.
* The `migration_history` table is modelled as a list of
  `(filename, dir_prefix)` pairs in insertion (= `id`) order.  The
  `filename TEXT UNIQUE` column constraint is modelled inside the ledger
  insert of `apply_migration`: inserting a filename already present raises
  the duplicate-key error, which the Python code's outer `except` turns
  into rollback + `False`.
* The filesystem under the data directory is a value of type `Fs`:
  `none` models a missing base directory (`FileNotFoundError` in
  `os.listdir`), `some items` models the directory listing, each entry
  with its name, an `isDir` flag and (for directories) the contained
  files with their text contents.
* `print` logging has no modelled effect; functions that in Python return
  `False`/a dict return `Bool × _` or `Option _` here.
-/

namespace DbMig

/-- Splitting a character list at every occurrence of `c`, keeping empty
pieces, as Python's `str.split(';')` does. -/
def splitOnChar (c : Char) : List Char → List (List Char)
  | [] => [[]]
  | x :: rest =>
    if x = c then [] :: splitOnChar c rest
    else
      match splitOnChar c rest with
      | [] => [[x]]
      | piece :: pieces => (x :: piece) :: pieces

/-- Python's `str.strip()`: drop leading and trailing whitespace. -/
def trimChars (l : List Char) : List Char :=
  ((l.dropWhile Char.isWhitespace).reverse.dropWhile Char.isWhitespace).reverse

/-- Occurrence of `needle` as a contiguous subsequence of `hay`. -/
def hasSub (needle : List Char) : List Char → Bool
  | [] => needle.isEmpty
  | c :: rest => needle.isPrefixOf (c :: rest) || hasSub needle rest

/-- Python's substring test `pat in s`. -/
def strHas (s pat : String) : Bool := hasSub pat.data s.data

/-- The exception raised by a failing SQL statement, as classified by the
`except` clauses of `apply_migration`: `sqlite3.OperationalError`,
`sqlite3.IntegrityError`, or any other exception; each carries `str(e)`. -/
inductive SqlError where
  | operational (msg : String)
  | integrity (msg : String)
  | otherExc (msg : String)
deriving DecidableEq, Repr

/-- A file on disk: basename and full text content. -/
structure SqlFile where
  name : String
  content : String
deriving DecidableEq, Repr

/-- One entry of `os.listdir(base_dir)`: its basename, whether it is a
directory, and (when a directory) the files directly inside it. -/
structure DirEntry where
  name : String
  isDir : Bool
  files : List SqlFile
deriving DecidableEq, Repr

/-- The filesystem under the configured data directory; `none` models a
non-existent base path. -/
abbrev Fs := Option (List DirEntry)

/-- The SQLite database reachable through the connection: abstract user
data plus the `migration_history` ledger in insertion order. -/
structure Db (υ : Type) where
  user : υ
  ledger : List (String × String)
deriving DecidableEq, Repr

/-- The module-level state of `database.py`: the global `_conn`. -/
structure Engine (υ : Type) where
  conn : Option (Db υ)
deriving DecidableEq, Repr

/-- `int(...)` on a string of decimal digits. -/
def digitsToNat (ds : List Char) : Nat :=
  ds.foldl (fun a c => 10 * a + (c.toNat - ('0').toNat)) 0

/-- The test `re.compile(r'^(\d+)_').match(item)`: a non-empty leading
digit run followed by an underscore. -/
def matchesStepPat (s : String) : Bool :=
  !(s.data.takeWhile Char.isDigit).isEmpty &&
    (s.data.dropWhile Char.isDigit).headD ' ' == '_'

/-- `int(pattern.match(item).group(1))`: the leading digit run parsed as a
number. -/
def stepNumber (s : String) : Nat :=
  digitsToNat (s.data.takeWhile Char.isDigit)

/-- Lexicographic comparison of character lists by Unicode code point —
Python's string order. -/
def charListLe : List Char → List Char → Bool
  | [], _ => true
  | _ :: _, [] => false
  | a :: as, b :: bs =>
    if a.toNat < b.toNat then true
    else if b.toNat < a.toNat then false
    else charListLe as bs

theorem charListLe_total : ∀ a b, charListLe a b = true ∨ charListLe b a = true
  | [], _ => Or.inl rfl
  | _ :: _, [] => Or.inr rfl
  | a :: as, b :: bs => by
    by_cases h1 : a.toNat < b.toNat
    · exact Or.inl (by simp [charListLe, h1])
    · by_cases h2 : b.toNat < a.toNat
      · exact Or.inr (by simp [charListLe, h1, h2])
      · rcases charListLe_total as bs with h | h
        · exact Or.inl (by simp [charListLe, h1, h2, h])
        · exact Or.inr (by simp [charListLe, h1, h2, h])

theorem charListLe_trans : ∀ a b c, charListLe a b = true →
    charListLe b c = true → charListLe a c = true
  | [], _, _, _, _ => rfl
  | _ :: _, [], _, hab, _ => by simp [charListLe] at hab
  | _ :: _, _ :: _, [], _, hbc => by simp [charListLe] at hbc
  | x :: xs, y :: ys, z :: zs, hab, hbc => by
    simp only [charListLe] at hab hbc ⊢
    by_cases hxy1 : x.toNat < y.toNat
    · by_cases hyz1 : y.toNat < z.toNat
      · rw [if_pos (by omega : x.toNat < z.toNat)]
      · by_cases hzy : z.toNat < y.toNat
        · rw [if_neg hyz1, if_pos hzy] at hbc
          exact absurd hbc (by simp)
        · rw [if_pos (by omega : x.toNat < z.toNat)]
    · by_cases hyx : y.toNat < x.toNat
      · rw [if_neg hxy1, if_pos hyx] at hab
        exact absurd hab (by simp)
      · rw [if_neg hxy1, if_neg hyx] at hab
        by_cases hyz1 : y.toNat < z.toNat
        · rw [if_pos (by omega : x.toNat < z.toNat)]
        · by_cases hzy : z.toNat < y.toNat
          · rw [if_neg hyz1, if_pos hzy] at hbc
            exact absurd hbc (by simp)
          · rw [if_neg hyz1, if_neg hzy] at hbc
            rw [if_neg (by omega : ¬ x.toNat < z.toNat),
              if_neg (by omega : ¬ z.toNat < x.toNat)]
            exact charListLe_trans xs ys zs hab hbc

/-- The order used by Python's stable `sorted` on the `(int, path)` pairs
(the path strings share the `base_dir + '/'` prefix, so comparing paths is
comparing entry names). -/
def dirRel (a b : Nat × DirEntry) : Prop :=
  a.1 < b.1 ∨ (a.1 = b.1 ∧ charListLe a.2.name.data b.2.name.data = true)

instance decDirRel : DecidableRel dirRel := fun a b => by
  unfold dirRel; infer_instance

instance totalDirRel : IsTotal (Nat × DirEntry) dirRel := by
  constructor
  intro a b
  rcases Nat.lt_trichotomy a.1 b.1 with h | h | h
  · exact Or.inl (Or.inl h)
  · rcases charListLe_total a.2.name.data b.2.name.data with h2 | h2
    · exact Or.inl (Or.inr ⟨h, h2⟩)
    · exact Or.inr (Or.inr ⟨h.symm, h2⟩)
  · exact Or.inr (Or.inl h)

instance transDirRel : IsTrans (Nat × DirEntry) dirRel := by
  constructor
  intro a b c hab hbc
  rcases hab with h1 | ⟨h1, h1s⟩ <;> rcases hbc with h2 | ⟨h2, h2s⟩
  · exact Or.inl (h1.trans h2)
  · exact Or.inl (h2 ▸ h1)
  · exact Or.inl (h1 ▸ h2)
  · exact Or.inr ⟨h1.trans h2, charListLe_trans _ _ _ h1s h2s⟩

/-- Lexical order on file names, as Python's stable `sorted` uses on the
globbed paths (all sharing the same directory prefix). -/
def fileRel (a b : SqlFile) : Prop :=
  charListLe a.name.data b.name.data = true

instance decFileRel : DecidableRel fileRel := fun a b => by
  unfold fileRel; infer_instance

instance totalFileRel : IsTotal SqlFile fileRel :=
  ⟨fun a b => charListLe_total a.name.data b.name.data⟩

instance transFileRel : IsTrans SqlFile fileRel :=
  ⟨fun _ _ _ h1 h2 => charListLe_trans _ _ _ h1 h2⟩

/-- `get_all_data_directories`: immediate subdirectories matching
`^(\d+)_`, paired with their parsed step number, sorted by
`(stepNumber, name)`; `[]` when the base directory does not exist.
Python's `sorted` is a stable sort, so it is modelled by the stable
`insertionSort`. -/
def get_all_data_directories (fs : Fs) : List (Nat × DirEntry) :=
  match fs with
  | none => []
  | some items =>
    List.insertionSort dirRel
      ((items.filter (fun e => e.isDir && matchesStepPat e.name)).map
        (fun e => (stepNumber e.name, e)))

/-- `get_sql_files_in_dir`: `sorted(glob.glob(os.path.join(d, "*.sql")))`
— the non-hidden files ending in `.sql`, sorted lexically by name. -/
def get_sql_files_in_dir (e : DirEntry) : List SqlFile :=
  List.insertionSort fileRel
    (e.files.filter
      (fun f => (".sql".data.isSuffixOf f.name.data) &&
        !(".".data.isPrefixOf f.name.data)))

/-- The two tolerated per-statement failures of `apply_migration`:
an `OperationalError` whose text mentions `already exists`, and an
`IntegrityError` whose text mentions `UNIQUE constraint failed`. -/
def toleratedErr : SqlError → Bool
  | .operational msg => strHas msg "already exists"
  | .integrity msg => strHas msg "UNIQUE constraint failed"
  | .otherExc _ => false

/-- The statement list `apply_migration` executes:
`sql_content.split(';')`, each piece stripped, empty pieces skipped. -/
def stmtsOf (content : String) : List String :=
  (((splitOnChar ';' content.data).map
    (fun cs => (⟨trimChars cs⟩ : String)))).filter (fun s => s ≠ "")

/-- The statement loop of `apply_migration`: execute each statement;
a tolerated error is logged and skipped (user state unchanged); any other
error propagates to the outer `except`. -/
def runStmts (exec : υ → String → Except SqlError υ) :
    υ → List String → Except SqlError υ
  | u, [] => .ok u
  | u, s :: rest =>
    match exec u s with
    | .ok u2 => runStmts exec u2 rest
    | .error e => if toleratedErr e then runStmts exec u rest else .error e

/-- `apply_migration(conn, sql_file, dir_prefix)`: run the statements,
then insert one `(filename, dir_prefix)` ledger row and commit; any
uncaught exception — including the duplicate-key `IntegrityError` from the
`filename TEXT UNIQUE` column when the filename is already recorded (under
any label) — reaches the outer `except`, which rolls back and returns
`False`. -/
def apply_migration (exec : υ → String → Except SqlError υ) (db : Db υ)
    (f : SqlFile) (dirLabel : String) : Bool × Db υ :=
  match runStmts exec db.user (stmtsOf f.content) with
  | .error _ => (false, db)
  | .ok u2 =>
    if f.name ∈ db.ledger.map Prod.fst then (false, db)
    else (true, ⟨u2, db.ledger ++ [(f.name, dirLabel)]⟩)

/-- The `for sql_file in sql_files: apply_migration(...)` loops of `init`,
`set` and `reset`, which ignore the per-file result. -/
def applyFiles (exec : υ → String → Except SqlError υ) (db : Db υ)
    (files : List SqlFile) (dirLabel : String) : Db υ :=
  files.foldl (fun d f => (apply_migration exec d f dirLabel).2) db

/-- `init(db_path, data_dir)`: close any prior connection, connect,
`reset_database` (drop every user table, recreate the empty ledger —
leaving `⟨emptyU, []⟩` whatever was stored before), then apply every SQL
file of the first directory with step number 0 in lexical order; always
returns `True`. -/
def init (exec : υ → String → Except SqlError υ) (emptyU : υ) (fs : Fs)
    (_st : Engine υ) : Bool × Engine υ :=
  let db0 : Db υ := ⟨emptyU, []⟩
  let dirs := get_all_data_directories fs
  match dirs.find? (fun p => p.1 == 0) with
  | some p =>
    (true, ⟨some (applyFiles exec db0 (get_sql_files_in_dir p.2) p.2.name)⟩)
  | none => (true, ⟨some db0⟩)

/-- The `applied`/`total` pair `status` reports per directory. -/
structure DirStatus where
  applied : Nat
  total : Nat
deriving DecidableEq, Repr

/-- The `result` dict of `status`, its `directories` dict as an
association list in directory order. -/
structure Report where
  total_applied : Nat
  directories : List (String × DirStatus)
deriving DecidableEq, Repr

/-- `status()`: `none` models the `return False` branches (no connection,
no step directories); otherwise the grand total is the ledger length and
each directory's `applied` is the number of ledger rows carrying exactly
its name as `dir_prefix`. -/
def status (fs : Fs) (st : Engine υ) : Option Report :=
  match st.conn with
  | none => none
  | some db =>
    let dirs := get_all_data_directories fs
    if dirs = [] then none
    else
      some
        { total_applied := db.ledger.length
          directories := dirs.map (fun p =>
            (p.2.name,
              ⟨(db.ledger.filter (fun r => r.2 == p.2.name)).length,
               (get_sql_files_in_dir p.2).length⟩)) }

/-- The dict `applied_files = {filename: dir_prefix for ...}` built by
`set` from the ledger snapshot: a later row overwrites an earlier one with
the same filename, so lookup returns the last matching row's label. -/
def appliedLabel (snap : List (String × String)) (f : String) :
    Option String :=
  (snap.reverse.find? (fun r => r.1 == f)).map (fun r => r.2)

/-- One file of `set`'s inner loop: apply unless the snapshot records this
very filename under this very directory name. -/
def setFileStep (exec : υ → String → Except SqlError υ)
    (snap : List (String × String)) (db : Db υ) (f : SqlFile)
    (dirName : String) : Db υ :=
  if appliedLabel snap f.name = some dirName then db
  else (apply_migration exec db f dirName).2

/-- `set`'s directory loop: process each directory with step number
`≤ target` and `break` right after the one whose step number equals
`target`. -/
def setLoop (exec : υ → String → Except SqlError υ)
    (snap : List (String × String)) (target : Int) :
    Db υ → List (Nat × DirEntry) → Db υ
  | db, [] => db
  | db, p :: rest =>
    let db2 :=
      if (p.1 : Int) ≤ target then
        (get_sql_files_in_dir p.2).foldl
          (fun d f => setFileStep exec snap d f p.2.name) db
      else db
    if (p.1 : Int) = target then db2 else setLoop exec snap target db2 rest

/-- `set(target_step)`: fail when no connection is open, no step
directories exist, or `target_step` is not a discovered step number;
otherwise snapshot the ledger, run the directory loop and return `True`. -/
def set (exec : υ → String → Except SqlError υ) (fs : Fs) (target : Int)
    (st : Engine υ) : Bool × Engine υ :=
  match st.conn with
  | none => (false, st)
  | some db =>
    let dirs := get_all_data_directories fs
    if dirs = [] then (false, st)
    else if ∀ p ∈ dirs, (p.1 : Int) ≠ target then (false, st)
    else (true, ⟨some (setLoop exec db.ledger target db dirs)⟩)

/-- `reset()`: fail when no connection or no step directories; otherwise
`reset_database` wipes the database first, and only then is the step-0
directory looked up — the `return False` branches for a missing step-0
directory or an empty one leave the wiped database behind. -/
def reset (exec : υ → String → Except SqlError υ) (emptyU : υ) (fs : Fs)
    (st : Engine υ) : Bool × Engine υ :=
  match st.conn with
  | none => (false, st)
  | some _ =>
    let dirs := get_all_data_directories fs
    if dirs = [] then (false, st)
    else
      let db0 : Db υ := ⟨emptyU, []⟩
      match dirs.find? (fun p => p.1 == 0) with
      | none => (false, ⟨some db0⟩)
      | some p =>
        let files := get_sql_files_in_dir p.2
        if files = [] then (false, ⟨some db0⟩)
        else (true, ⟨some (applyFiles exec db0 files p.2.name)⟩)

/-- `close()`: drop the connection, reporting whether one was open. -/
def close (st : Engine υ) : Bool × Engine υ :=
  match st.conn with
  | none => (false, st)
  | some _ => (true, ⟨none⟩)

/-- One public operation of the engine, with the filesystem observed at
call time (step directories are re-scanned on every call). -/
inductive Op where
  | opInit (fs : Fs)
  | opSet (fs : Fs) (target : Int)
  | opReset (fs : Fs)
  | opClose
deriving Repr

/-- Run one operation for its state effect. -/
def runOp (exec : υ → String → Except SqlError υ) (emptyU : υ)
    (st : Engine υ) : Op → Engine υ
  | .opInit fs => (init exec emptyU fs st).2
  | .opSet fs k => (set exec fs k st).2
  | .opReset fs => (reset exec emptyU fs st).2
  | .opClose => (close st).2

/-- Run a sequence of operations from a starting state. -/
def runOps (exec : υ → String → Except SqlError υ) (emptyU : υ)
    (st : Engine υ) : List Op → Engine υ :=
  List.foldl (runOp exec emptyU) st

/-- The fresh module state: no connection open. -/
def startEngine : Engine υ := ⟨none⟩

/-- The ledger visible through the connection (empty when closed). -/
def ledgerOf (st : Engine υ) : List (String × String) :=
  match st.conn with
  | none => []
  | some db => db.ledger

/-- The directories `set`'s loop iterates over: everything up to and
including the first directory whose step number equals the target (the
`break`). -/
def upToTarget (k : Int) : List (Nat × DirEntry) → List (Nat × DirEntry)
  | [] => []
  | p :: rest => if (p.1 : Int) = k then [p] else p :: upToTarget k rest

/-- Declarative tolerant execution: from user state `u`, running the
statements in order ends in state `w`, where each statement either
executes cleanly or fails with one of the two tolerated errors (an
`already exists` operational error or a `UNIQUE constraint failed`
integrity error) and is skipped. -/
inductive TolRun (exec : υ → String → Except SqlError υ) :
    υ → List String → υ → Prop where
  | nil (u : υ) : TolRun exec u [] u
  | okStep {u u2 w : υ} {s : String} {rest : List String} :
      exec u s = .ok u2 → TolRun exec u2 rest w →
      TolRun exec u (s :: rest) w
  | tolStep {u w : υ} {s : String} {e : SqlError} {rest : List String} :
      exec u s = .error e → toleratedErr e = true → TolRun exec u rest w →
      TolRun exec u (s :: rest) w

/-- The ledger filenames are duplicate-free. -/
def EngInv (st : Engine υ) : Prop := ((ledgerOf st).map Prod.fst).Nodup

/-- Modelled from the spec: `maxAppliedStep`, "the highest step number for
which any ledger entry's directory-label prefix matches (−1 if the ledger
is empty)".  No such computation exists in `src/database.py`; the
definition follows the spec's words so the forward-only-guard claim can be
stated against the code. -/
def specMaxAppliedStep (ledger : List (String × String)) : Int :=
  (ledger.map (fun r => (stepNumber r.2 : Int))).foldl max (-1)

/-- Modelled from the spec: the per-directory count the status claim
describes, "the number of that directory's files that appear in the ledger
under that directory's exact label". -/
def specAppliedCount (e : DirEntry) (ledger : List (String × String)) : Nat :=
  ((get_sql_files_in_dir e).filter
    (fun f => decide ((f.name, e.name) ∈ ledger))).length

/-- A concrete statement semantics used to evaluate the engine on closed
inputs: the user state is the list of objects created so far; `"BOOM"`
fails fatally, re-creating an existing object raises the tolerated
`already exists` operational error, anything else creates an object. -/
def xExec : List String → String → Except SqlError (List String) :=
  fun u s =>
    if s = "BOOM" then .error (.otherExc "boom")
    else if s ∈ u then
      .error (.operational ("object " ++ s ++ " already exists"))
    else .ok (s :: u)

/-- A step-0 directory with two SQL files. -/
def xInit : DirEntry := ⟨"0_init", true, [⟨"a.sql", "mkA"⟩, ⟨"b.sql", "mkB"⟩]⟩

/-- A step-1 directory with three SQL files. -/
def xSeed : DirEntry :=
  ⟨"1_seed", true, [⟨"c.sql", "mkC"⟩, ⟨"d.sql", "mkD"⟩, ⟨"e.sql", "mkE"⟩]⟩

/-- A data directory holding `0_init` and `1_seed`. -/
def xFs : Fs := some [xSeed, xInit]

/-- A database whose ledger holds both `0_init` files and one `1_seed`
file. -/
def xDb : Db (List String) :=
  ⟨[], [("a.sql", "0_init"), ("b.sql", "0_init"), ("c.sql", "1_seed")]⟩

/-- An engine connected to `xDb`. -/
def xSt : Engine (List String) := ⟨some xDb⟩

/-- A data directory whose only step directory `1_seed` holds `a.sql`. -/
def xFs2 : Fs := some [⟨"1_seed", true, [⟨"a.sql", "mkA2"⟩]⟩]

/-- A database that recorded `a.sql` under the label `0_init`. -/
def xDb2 : Db (List String) := ⟨[], [("a.sql", "0_init")]⟩

/-- A step directory `1_seed` that currently holds no files at all. -/
def xDir4 : DirEntry := ⟨"1_seed", true, []⟩

/-- A data directory holding only the empty `1_seed`. -/
def xFs4 : Fs := some [xDir4]

/-- A database whose ledger row is labelled `1_seed` although `ghost.sql`
is not among that directory's files. -/
def xDb4 : Db (List String) := ⟨[], [("ghost.sql", "1_seed")]⟩

/-- A data directory with no step-0 directory. -/
def xFsNo0 : Fs := some [xSeed]

/-- A data directory holding `10_x` and `2_y`, to exhibit numeric (not
lexical) ordering. -/
def xFsOrd : Fs := some [⟨"10_x", true, []⟩, ⟨"2_y", true, []⟩]

/-- `apply_migration` either fails leaving the database exactly as it was
(rollback), or succeeds appending exactly one ledger row for a filename
not yet recorded. -/
theorem apply_migration_cases (exec : υ → String → Except SqlError υ)
    (db : Db υ) (f : SqlFile) (lab : String) :
    apply_migration exec db f lab = (false, db) ∨
    ((apply_migration exec db f lab).1 = true ∧
      (apply_migration exec db f lab).2.ledger = db.ledger ++ [(f.name, lab)] ∧
      f.name ∉ db.ledger.map Prod.fst) := by
  unfold apply_migration
  rcases h : runStmts exec db.user (stmtsOf f.content) with e | u2
  · exact Or.inl rfl
  · by_cases hmem : f.name ∈ db.ledger.map Prod.fst
    · simp [hmem]
    · simp [hmem]

/-- The ledger after `apply_migration` is the old ledger plus possibly one
row `(f.name, lab)`. -/
theorem apply_migration_snd_ledger (exec : υ → String → Except SqlError υ)
    (db : Db υ) (f : SqlFile) (lab : String) :
    ∃ t, (apply_migration exec db f lab).2.ledger = db.ledger ++ t ∧
      ∀ e ∈ t, e = (f.name, lab) := by
  rcases apply_migration_cases exec db f lab with h | ⟨_, h, _⟩
  · exact ⟨[], by simp [h]⟩
  · exact ⟨[(f.name, lab)], by simp [h]⟩

/-- `apply_migration` keeps ledger filenames duplicate-free. -/
theorem apply_migration_nodup (exec : υ → String → Except SqlError υ)
    (db : Db υ) (f : SqlFile) (lab : String)
    (h : (db.ledger.map Prod.fst).Nodup) :
    ((apply_migration exec db f lab).2.ledger.map Prod.fst).Nodup := by
  rcases apply_migration_cases exec db f lab with h1 | ⟨_, h1, h2⟩
  · rw [h1]; exact h
  · rw [h1]
    simp only [List.map_append, List.map_cons, List.map_nil]
    simp [List.nodup_append, h, h2]

/-- The file loop of `init`/`reset` only appends rows labelled with the
processed directory. -/
theorem applyFiles_ledger (exec : υ → String → Except SqlError υ)
    (files : List SqlFile) (db : Db υ) (lab : String) :
    ∃ t, (applyFiles exec db files lab).ledger = db.ledger ++ t ∧
      ∀ e ∈ t, e.2 = lab := by
  induction files generalizing db with
  | nil => exact ⟨[], by simp [applyFiles]⟩
  | cons f rest ih =>
    obtain ⟨t1, ht1, ht1lab⟩ := apply_migration_snd_ledger exec db f lab
    obtain ⟨t2, ht2, ht2lab⟩ := ih (apply_migration exec db f lab).2
    refine ⟨t1 ++ t2, ?_, ?_⟩
    · simpa [applyFiles, ht1, List.append_assoc] using ht2
    · intro e he
      rcases List.mem_append.mp he with he | he
      · rw [ht1lab e he]
      · exact ht2lab e he

/-- The file loop of `init`/`reset` keeps ledger filenames
duplicate-free. -/
theorem applyFiles_nodup (exec : υ → String → Except SqlError υ)
    (files : List SqlFile) (db : Db υ) (lab : String)
    (h : (db.ledger.map Prod.fst).Nodup) :
    (((applyFiles exec db files lab).ledger.map Prod.fst)).Nodup := by
  induction files generalizing db with
  | nil => simpa [applyFiles] using h
  | cons f rest ih =>
    have := apply_migration_nodup exec db f lab h
    simpa [applyFiles] using ih (apply_migration exec db f lab).2 this

/-- A single file step of `set` only appends rows labelled with the
processed directory. -/
theorem setFileStep_ledger (exec : υ → String → Except SqlError υ)
    (snap : List (String × String)) (db : Db υ) (f : SqlFile) (n : String) :
    ∃ t, (setFileStep exec snap db f n).ledger = db.ledger ++ t ∧
      ∀ e ∈ t, e.2 = n := by
  unfold setFileStep
  split
  · exact ⟨[], by simp⟩
  · obtain ⟨t, ht, htlab⟩ := apply_migration_snd_ledger exec db f n
    exact ⟨t, ht, fun e he => by rw [htlab e he]⟩

/-- A single file step of `set` keeps ledger filenames duplicate-free. -/
theorem setFileStep_nodup (exec : υ → String → Except SqlError υ)
    (snap : List (String × String)) (db : Db υ) (f : SqlFile) (n : String)
    (h : (db.ledger.map Prod.fst).Nodup) :
    ((setFileStep exec snap db f n).ledger.map Prod.fst).Nodup := by
  unfold setFileStep
  split
  · exact h
  · exact apply_migration_nodup exec db f n h

/-- The inner file loop of `set` only appends rows labelled with the
processed directory. -/
theorem foldlSetFile_ledger (exec : υ → String → Except SqlError υ)
    (snap : List (String × String)) (files : List SqlFile) (db : Db υ)
    (n : String) :
    ∃ t, (files.foldl (fun d f => setFileStep exec snap d f n) db).ledger =
        db.ledger ++ t ∧ ∀ e ∈ t, e.2 = n := by
  induction files generalizing db with
  | nil => exact ⟨[], by simp⟩
  | cons f rest ih =>
    obtain ⟨t1, ht1, ht1lab⟩ := setFileStep_ledger exec snap db f n
    obtain ⟨t2, ht2, ht2lab⟩ := ih (setFileStep exec snap db f n)
    refine ⟨t1 ++ t2, ?_, ?_⟩
    · simpa [ht1, List.append_assoc] using ht2
    · intro e he
      rcases List.mem_append.mp he with he | he
      · exact ht1lab e he
      · exact ht2lab e he

/-- The inner file loop of `set` keeps ledger filenames duplicate-free. -/
theorem foldlSetFile_nodup (exec : υ → String → Except SqlError υ)
    (snap : List (String × String)) (files : List SqlFile) (db : Db υ)
    (n : String) (h : (db.ledger.map Prod.fst).Nodup) :
    ((files.foldl (fun d f => setFileStep exec snap d f n) db).ledger.map
      Prod.fst).Nodup := by
  induction files generalizing db with
  | nil => exact h
  | cons f rest ih =>
    exact ih (setFileStep exec snap db f n) (setFileStep_nodup exec snap db f n h)

/-- `set`'s directory loop only appends rows whose label is the name of a
visited directory (step number `≤ k`, before the `break`). -/
theorem setLoop_ledger (exec : υ → String → Except SqlError υ)
    (snap : List (String × String)) (k : Int)
    (dirs : List (Nat × DirEntry)) (db : Db υ) :
    ∃ t, (setLoop exec snap k db dirs).ledger = db.ledger ++ t ∧
      ∀ e ∈ t, ∃ p, p ∈ upToTarget k dirs ∧ (p.1 : Int) ≤ k ∧
        e.2 = p.2.name := by
  induction dirs generalizing db with
  | nil => exact ⟨[], by simp [setLoop]⟩
  | cons p rest ih =>
    by_cases hle : (p.1 : Int) ≤ k
    · obtain ⟨t1, ht1, ht1lab⟩ :=
        foldlSetFile_ledger exec snap (get_sql_files_in_dir p.2) db p.2.name
      by_cases heq : (p.1 : Int) = k
      · refine ⟨t1, by simp [setLoop, hle, heq, ht1], ?_⟩
        intro e he
        exact ⟨p, by simp [upToTarget, heq], hle, ht1lab e he⟩
      · obtain ⟨t2, ht2, ht2lab⟩ :=
          ih ((get_sql_files_in_dir p.2).foldl
            (fun d f => setFileStep exec snap d f p.2.name) db)
        refine ⟨t1 ++ t2, ?_, ?_⟩
        · simp only [setLoop, if_pos hle, if_neg heq]
          simpa [ht1, List.append_assoc] using ht2
        · intro e he
          rcases List.mem_append.mp he with he | he
          · exact ⟨p, by simp [upToTarget, heq], hle, ht1lab e he⟩
          · obtain ⟨q, hq, hqle, hqname⟩ := ht2lab e he
            exact ⟨q, by simp [upToTarget, heq, hq], hqle, hqname⟩
    · have heq : ¬ (p.1 : Int) = k := fun h => hle (le_of_eq h)
      obtain ⟨t2, ht2, ht2lab⟩ := ih db
      refine ⟨t2, by simp [setLoop, hle, heq, ht2], ?_⟩
      intro e he
      obtain ⟨q, hq, hqle, hqname⟩ := ht2lab e he
      exact ⟨q, by simp [upToTarget, heq, hq], hqle, hqname⟩

/-- `set`'s directory loop keeps ledger filenames duplicate-free. -/
theorem setLoop_nodup (exec : υ → String → Except SqlError υ)
    (snap : List (String × String)) (k : Int)
    (dirs : List (Nat × DirEntry)) (db : Db υ)
    (h : (db.ledger.map Prod.fst).Nodup) :
    ((setLoop exec snap k db dirs).ledger.map Prod.fst).Nodup := by
  induction dirs generalizing db with
  | nil => exact h
  | cons p rest ih =>
    by_cases hle : (p.1 : Int) ≤ k
    · by_cases heq : (p.1 : Int) = k
      · simp only [setLoop, if_pos hle, if_pos heq]
        exact foldlSetFile_nodup exec snap _ db p.2.name h
      · simp only [setLoop, if_pos hle, if_neg heq]
        exact ih _ (foldlSetFile_nodup exec snap _ db p.2.name h)
    · have heq : ¬ (p.1 : Int) = k := fun hh => hle (le_of_eq hh)
      simp only [setLoop, if_neg hle, if_neg heq]
      exact ih db h

/-- When every file of every visited directory is already recorded under
its directory's name, the inner file loop changes nothing. -/
theorem foldlSetFile_skip (exec : υ → String → Except SqlError υ)
    (snap : List (String × String)) (files : List SqlFile) (db : Db υ)
    (n : String) (h : ∀ f ∈ files, appliedLabel snap f.name = some n) :
    files.foldl (fun d f => setFileStep exec snap d f n) db = db := by
  induction files generalizing db with
  | nil => rfl
  | cons f rest ih =>
    have hf : setFileStep exec snap db f n = db := by
      unfold setFileStep
      rw [if_pos (h f (List.mem_cons_self f rest))]
    simp only [List.foldl_cons, hf]
    exact ih db (fun g hg => h g (List.mem_cons_of_mem f hg))

/-- When every file of every directory with step number `≤ k` is already
recorded under its directory's name, `set`'s loop changes nothing. -/
theorem setLoop_skip (exec : υ → String → Except SqlError υ)
    (snap : List (String × String)) (k : Int)
    (dirs : List (Nat × DirEntry)) (db : Db υ)
    (h : ∀ p ∈ dirs, (p.1 : Int) ≤ k →
      ∀ f ∈ get_sql_files_in_dir p.2, appliedLabel snap f.name = some p.2.name) :
    setLoop exec snap k db dirs = db := by
  induction dirs generalizing db with
  | nil => rfl
  | cons p rest ih =>
    simp only [setLoop]
    by_cases hle : (p.1 : Int) ≤ k
    · rw [if_pos hle,
        foldlSetFile_skip exec snap _ db p.2.name
          (h p (List.mem_cons_self p rest) hle)]
      split
      · rfl
      · exact ih db (fun q hq => h q (List.mem_cons_of_mem p hq))
    · rw [if_neg hle]
      split
      · rfl
      · exact ih db (fun q hq => h q (List.mem_cons_of_mem p hq))

/-- The statement loop succeeds exactly on tolerant runs. -/
theorem runStmts_ok_iff (exec : υ → String → Except SqlError υ)
    (u w : υ) (ss : List String) :
    runStmts exec u ss = .ok w ↔ TolRun exec u ss w := by
  constructor
  · intro h
    induction ss generalizing u with
    | nil =>
      simp only [runStmts, Except.ok.injEq] at h
      exact h ▸ TolRun.nil u
    | cons s rest ih =>
      simp only [runStmts] at h
      split at h
      · rename_i u2 hex
        exact TolRun.okStep hex (ih u2 h)
      · rename_i e hex
        split at h
        · rename_i ht
          exact TolRun.tolStep hex ht (ih u h)
        · exact absurd h (by simp)
  · intro h
    induction h with
    | nil u => rfl
    | okStep hex _ ih => simpa only [runStmts, hex] using ih
    | tolStep hex ht _ ih => simpa only [runStmts, hex, ht, if_true] using ih

/-- Whenever a connection is open, `set` keeps it open and only ever
appends ledger rows. -/
theorem set_conn_some (exec : υ → String → Except SqlError υ) (fs : Fs)
    (k : Int) (st : Engine υ) (db : Db υ) (h : st.conn = some db) :
    ∃ db2 t, (set exec fs k st).2.conn = some db2 ∧
      db2.ledger = db.ledger ++ t := by
  simp only [set, h]
  by_cases h1 : get_all_data_directories fs = []
  · rw [if_pos h1]
    exact ⟨db, [], h, by simp⟩
  · rw [if_neg h1]
    by_cases h2 : ∀ p ∈ get_all_data_directories fs, (p.1 : Int) ≠ k
    · rw [if_pos h2]
      exact ⟨db, [], h, by simp⟩
    · rw [if_neg h2]
      obtain ⟨t, ht, _⟩ :=
        setLoop_ledger exec db.ledger k (get_all_data_directories fs) db
      exact ⟨_, t, rfl, ht⟩

/-- Every public operation preserves duplicate-freeness of the ledger
filenames. -/
theorem runOp_inv (exec : υ → String → Except SqlError υ) (emptyU : υ)
    (st : Engine υ) (op : Op) (h : EngInv st) :
    EngInv (runOp exec emptyU st op) := by
  have hnil : (([] : List (String × String)).map Prod.fst).Nodup := by simp
  cases op with
  | opInit fs =>
    simp only [runOp, init]
    rcases hf : (get_all_data_directories fs).find? (fun p => p.1 == 0) with
      _ | p
    · simp [EngInv, ledgerOf, hf]
    · simpa [EngInv, ledgerOf, hf] using
        applyFiles_nodup exec (get_sql_files_in_dir p.2) ⟨emptyU, []⟩
          p.2.name hnil
  | opSet fs k =>
    rcases hc : st.conn with _ | db
    · simpa [runOp, set, hc] using h
    · simp only [runOp, set, hc]
      by_cases h1 : get_all_data_directories fs = []
      · rw [if_pos h1]
        exact h
      · rw [if_neg h1]
        by_cases h2 : ∀ p ∈ get_all_data_directories fs, (p.1 : Int) ≠ k
        · rw [if_pos h2]
          exact h
        · rw [if_neg h2]
          have hdb : ((db.ledger.map Prod.fst)).Nodup := by
            simpa [EngInv, ledgerOf, hc] using h
          simpa [EngInv, ledgerOf] using
            setLoop_nodup exec db.ledger k (get_all_data_directories fs) db hdb
  | opReset fs =>
    rcases hc : st.conn with _ | db
    · simpa [runOp, reset, hc] using h
    · simp only [runOp, reset, hc]
      by_cases h1 : get_all_data_directories fs = []
      · rw [if_pos h1]
        exact h
      · rw [if_neg h1]
        rcases hf : (get_all_data_directories fs).find? (fun p => p.1 == 0)
          with _ | p
        · simp [EngInv, ledgerOf, hf]
        · by_cases h2 : get_sql_files_in_dir p.2 = []
          · simp [EngInv, ledgerOf, hf, h2]
          · simpa [EngInv, ledgerOf, hf, h2] using
              applyFiles_nodup exec (get_sql_files_in_dir p.2) ⟨emptyU, []⟩
                p.2.name hnil
  | opClose =>
    rcases hc : st.conn with _ | db
    · simpa [runOp, close, hc] using h
    · simp [runOp, close, hc, EngInv, ledgerOf]

/-- Sequences of operations preserve duplicate-freeness. -/
theorem runOps_inv (exec : υ → String → Except SqlError υ) (emptyU : υ)
    (st : Engine υ) (ops : List Op) (h : EngInv st) :
    EngInv (runOps exec emptyU st ops) := by
  induction ops generalizing st with
  | nil => exact h
  | cons op rest ih => exact ih (runOp exec emptyU st op) (runOp_inv exec emptyU st op h)

/-- `apply_migration` returns `True` exactly when the statement loop
succeeds and the filename is not yet in the ledger. -/
theorem apply_migration_true_iff (exec : υ → String → Except SqlError υ)
    (db : Db υ) (f : SqlFile) (lab : String) :
    (apply_migration exec db f lab).1 = true ↔
      (∃ w, runStmts exec db.user (stmtsOf f.content) = .ok w) ∧
        f.name ∉ db.ledger.map Prod.fst := by
  unfold apply_migration
  rcases h : runStmts exec db.user (stmtsOf f.content) with e | u2
  · simp
  · by_cases hmem : f.name ∈ db.ledger.map Prod.fst
    · simp [hmem]
    · simp [hmem]

/-- C7.  Idempotence of `init`: two successive `init` calls leave the same
ledger contents as one, because `init` ignores the prior engine state —
it drops all user tables, recreates the empty ledger, and replays the
step-0 directory's files in lexical order. -/
theorem init_twice_same_ledger (exec : υ → String → Except SqlError υ)
    (emptyU : υ) (fs : Fs) (st : Engine υ) :
    ledgerOf ((init exec emptyU fs ((init exec emptyU fs st).2)).2) =
      ledgerOf ((init exec emptyU fs st).2) := rfl

/-- C5.  Ledger filename uniqueness: after any sequence of `init`, `set`,
`reset` and `close` operations from the fresh module state, every filename
appears at most once among the ledger's rows. -/
theorem ops_preserve_filename_uniqueness
    (exec : υ → String → Except SqlError υ) (emptyU : υ) (ops : List Op) :
    ((ledgerOf (runOps exec emptyU startEngine ops)).map Prod.fst).Nodup :=
  runOps_inv exec emptyU startEngine ops (by simp [EngInv, ledgerOf, startEngine])

/-- C6.  Monotonic ledger growth: `set a` then `set b` with `b > a` and no
intervening `init`/`reset` only ever appends, so the ledger after the
second call contains every row of the ledger after the first. -/
theorem setStep_ledger_monotone (exec : υ → String → Except SqlError υ)
    (fsA fsB : Fs) (a b : Int) (st : Engine υ) (db : Db υ)
    (hconn : st.conn = some db) (_hab : a < b) :
    ∃ db1 db2,
      (set exec fsA a st).2.conn = some db1 ∧
      (set exec fsB b ((set exec fsA a st).2)).2.conn = some db2 ∧
      db1.ledger ⊆ db2.ledger := by
  obtain ⟨db1, t1, h1, _⟩ := set_conn_some exec fsA a st db hconn
  obtain ⟨db2, t2, h2, hl2⟩ := set_conn_some exec fsB b _ db1 h1
  refine ⟨db1, db2, h1, h2, ?_⟩
  rw [hl2]
  exact List.subset_append_left _ _

/-- Witness for C6 at the concrete engine `xSt` with steps 0 then 1. -/
theorem setStep_ledger_monotone_witness :
    ∃ db1 db2,
      (set xExec xFs 0 xSt).2.conn = some db1 ∧
      (set xExec xFs 1 ((set xExec xFs 0 xSt).2)).2.conn = some db2 ∧
      db1.ledger ⊆ db2.ledger :=
  setStep_ledger_monotone xExec xFs xFs 0 1 xSt xDb rfl (by decide)

/-- C1 counterexample.  With ledger entries implying
`maxAppliedStep = 1`, the call `set 0` — a backward move — returns `True`,
not failure: `src/database.py`'s `set` has no forward-only guard. -/
theorem setStep_backward_returns_true :
    specMaxAppliedStep xDb.ledger = 1 ∧ (0 : Int) < 1 ∧
    (set xExec xFs 0 xSt).1 = true ∧ (set xExec xFs 0 xSt).2 = xSt := by
  decide

/-- C1 (amended).  `set k` returns `True` whenever a connection is open
and `k` is among the discovered step numbers — the engine never compares
`k` against the highest already-applied step; if additionally every file
of every directory with step number `≤ k` is already recorded under that
directory's label, the whole engine state (ledger included) is also left
unchanged. -/
theorem setStep_no_backward_guard (exec : υ → String → Except SqlError υ)
    (fs : Fs) (k : Int) (st : Engine υ) (db : Db υ)
    (hconn : st.conn = some db)
    (hk : ∃ p ∈ get_all_data_directories fs, (p.1 : Int) = k) :
    (set exec fs k st).1 = true ∧
    ((∀ p ∈ get_all_data_directories fs, (p.1 : Int) ≤ k →
        ∀ f ∈ get_sql_files_in_dir p.2,
          appliedLabel db.ledger f.name = some p.2.name) →
      set exec fs k st = (true, st)) := by
  obtain ⟨p, hp, hpk⟩ := hk
  have h1 : get_all_data_directories fs ≠ [] := by
    intro hnil
    rw [hnil] at hp
    exact (List.not_mem_nil p) hp
  have h2 : ¬ ∀ q ∈ get_all_data_directories fs, (q.1 : Int) ≠ k :=
    fun hall => hall p hp hpk
  constructor
  · simp only [set, hconn]
    rw [if_neg h1, if_neg h2]
  · intro hcov
    simp only [set, hconn]
    rw [if_neg h1, if_neg h2,
      setLoop_skip exec db.ledger k (get_all_data_directories fs) db hcov]
    have hst : st = ⟨some db⟩ := by
      cases st
      simpa using hconn
    rw [hst]

/-- Witness for C1's amended theorem: backward `set 0` on the fully
applied `xSt` returns `True` and changes nothing, although
`maxAppliedStep` is 1. -/
theorem setStep_no_backward_guard_witness :
    specMaxAppliedStep xDb.ledger = 1 ∧ (0 : Int) < 1 ∧
    (set xExec xFs 0 xSt).1 = true ∧ set xExec xFs 0 xSt = (true, xSt) := by
  have h := setStep_no_backward_guard xExec xFs 0 xSt xDb rfl (by decide)
  exact ⟨by decide, by decide, h.1, h.2 (by decide)⟩

/-- C2 counterexample.  `a.sql` is recorded in the ledger under the label
`0_init`; re-applying it from the directory `1_seed` is attempted but
fails — the ledger gains no row — because the `filename` column is UNIQUE
regardless of the label, refuting "applying the same filename from a
directory with a different label succeeds and adds a ledger row". -/
theorem relabel_apply_fails_concrete :
    appliedLabel xDb2.ledger "a.sql" = some "0_init" ∧
    ("0_init" : String) ≠ "1_seed" ∧
    apply_migration xExec xDb2 ⟨"a.sql", "mkA2"⟩ "1_seed" = (false, xDb2) ∧
    (set xExec xFs2 1 ⟨some xDb2⟩).2 = ⟨some xDb2⟩ := by
  decide

/-- C2 (amended).  A file already recorded under a *different* directory
label is indeed treated as newly pending — `set` invokes the applier on it
rather than skipping it — but the ledger insert then fails on the
filename-only UNIQUE key, the transaction is rolled back, and no ledger
row is added: the apply reports failure. -/
theorem relabel_treated_pending_but_insert_fails
    (exec : υ → String → Except SqlError υ)
    (snap : List (String × String)) (db : Db υ) (f : SqlFile)
    (n l : String) (hl : appliedLabel snap f.name = some l) (hne : l ≠ n)
    (hmem : f.name ∈ db.ledger.map Prod.fst) :
    setFileStep exec snap db f n = (apply_migration exec db f n).2 ∧
    apply_migration exec db f n = (false, db) := by
  constructor
  · unfold setFileStep
    rw [if_neg (fun hcontra => hne (Option.some.inj (hl.symm.trans hcontra)))]
  · rcases apply_migration_cases exec db f n with hc | ⟨_, _, hfresh⟩
    · exact hc
    · exact absurd hmem hfresh

/-- Witness for C2's amended theorem at the concrete relabelled file. -/
theorem relabel_treated_pending_but_insert_fails_witness :
    setFileStep xExec xDb2.ledger xDb2 ⟨"a.sql", "mkA2"⟩ "1_seed" =
      (apply_migration xExec xDb2 ⟨"a.sql", "mkA2"⟩ "1_seed").2 ∧
    apply_migration xExec xDb2 ⟨"a.sql", "mkA2"⟩ "1_seed" = (false, xDb2) :=
  relabel_treated_pending_but_insert_fails xExec xDb2.ledger xDb2
    ⟨"a.sql", "mkA2"⟩ "1_seed" "0_init" (by decide) (by decide) (by decide)

/-- Witness for C7 at the concrete engine and data directory. -/
theorem init_twice_same_ledger_witness :
    ledgerOf ((init xExec ([] : List String) xFs
        ((init xExec ([] : List String) xFs xSt).2)).2) =
      ledgerOf ((init xExec ([] : List String) xFs xSt).2) :=
  init_twice_same_ledger xExec [] xFs xSt

/-- Witness for C5 on a concrete operation sequence: `init`, `set 1`,
`reset`, `close`, `init`. -/
theorem ops_preserve_filename_uniqueness_witness :
    ((ledgerOf (runOps xExec ([] : List String) startEngine
        [Op.opInit xFs, Op.opSet xFs 1, Op.opReset xFs, Op.opClose,
          Op.opInit xFs])).map Prod.fst).Nodup :=
  ops_preserve_filename_uniqueness xExec []
    [Op.opInit xFs, Op.opSet xFs 1, Op.opReset xFs, Op.opClose,
      Op.opInit xFs]

/-- C3.  Tolerant-but-transactional apply: `apply_migration` executes the
semicolon-split, trimmed, non-empty statements in order; it returns `True`
exactly when every statement executed or failed with a tolerated error
(`already exists` operational / `UNIQUE constraint failed` integrity) and
the single ledger insert succeeded (filename not yet recorded), in which
case exactly one ledger row is appended; on failure the whole database is
rolled back unchanged. -/
theorem apply_tolerant_transactional (exec : υ → String → Except SqlError υ)
    (db : Db υ) (f : SqlFile) (lab : String) :
    ((apply_migration exec db f lab).1 = true ↔
      (∃ w, TolRun exec db.user (stmtsOf f.content) w) ∧
        f.name ∉ db.ledger.map Prod.fst) ∧
    ((apply_migration exec db f lab).1 = true →
      (apply_migration exec db f lab).2.ledger =
        db.ledger ++ [(f.name, lab)]) ∧
    ((apply_migration exec db f lab).1 = false →
      (apply_migration exec db f lab).2 = db) := by
  refine ⟨?_, ?_, ?_⟩
  · rw [apply_migration_true_iff exec db f lab]
    constructor
    · rintro ⟨⟨w, hw⟩, hfresh⟩
      exact ⟨⟨w, (runStmts_ok_iff exec db.user w (stmtsOf f.content)).mp hw⟩,
        hfresh⟩
    · rintro ⟨⟨w, hw⟩, hfresh⟩
      exact ⟨⟨w, (runStmts_ok_iff exec db.user w (stmtsOf f.content)).mpr hw⟩,
        hfresh⟩
  · intro h
    rcases apply_migration_cases exec db f lab with hc | ⟨_, hled, _⟩
    · rw [hc] at h
      exact absurd h (by simp)
    · exact hled
  · intro h
    rcases apply_migration_cases exec db f lab with hc | ⟨ht, _, _⟩
    · rw [hc]
    · rw [ht] at h
      exact absurd h (by simp)

/-- Witness for C3: a file whose first statement hits the tolerated
`already exists` error is still applied successfully (one ledger row),
and a file with a fatal statement leaves the database unchanged. -/
theorem apply_tolerant_transactional_witness :
    (apply_migration xExec ⟨["mkA"], []⟩ ⟨"f.sql", "mkA; mkB;; "⟩
      "0_init").1 = true ∧
    (apply_migration xExec ⟨[], []⟩ ⟨"f.sql", "mkA; BOOM; mkB"⟩
      "0_init").2 = ⟨[], []⟩ := by
  constructor
  · apply (apply_tolerant_transactional xExec ⟨["mkA"], []⟩
      ⟨"f.sql", "mkA; mkB;; "⟩ "0_init").1.mpr
    refine ⟨⟨["mkB", "mkA"], ?_⟩, by decide⟩
    have hs : stmtsOf "mkA; mkB;; " = ["mkA", "mkB"] := by decide
    rw [hs]
    have hex1 : xExec ["mkA"] "mkA" =
        .error (.operational "object mkA already exists") := rfl
    have hex2 : xExec ["mkA"] "mkB" = .ok ["mkB", "mkA"] := rfl
    exact TolRun.tolStep hex1 (by decide)
      (TolRun.okStep hex2 (TolRun.nil ["mkB", "mkA"]))
  · exact (apply_tolerant_transactional xExec ⟨[], []⟩
      ⟨"f.sql", "mkA; BOOM; mkB"⟩ "0_init").2.2 (by decide)

/-- C4 counterexample.  The ledger row `("ghost.sql", "1_seed")` refers to
a file that is not among `1_seed`'s files (the directory is empty), yet
`status` reports `applied = 1` for `1_seed`; the number of that
directory's files appearing in the ledger under its label is `0` — the
per-directory count is over ledger rows, not over the directory's files. -/
theorem status_counts_ghost_rows :
    status xFs4 (⟨some xDb4⟩ : Engine (List String)) =
      some ⟨1, [("1_seed", ⟨1, 0⟩)]⟩ ∧
    specAppliedCount xDir4 xDb4.ledger = 0 ∧ (1 : Nat) ≠ 0 := by
  decide

/-- C4 (amended).  With a connection open and at least one step directory,
`status` reports `total_applied` equal to the number of all ledger rows
and, per discovered directory, `applied` equal to the number of ledger
rows carrying exactly that directory's name as label (whether or not those
filenames are among the directory's current files) together with the
directory's `.sql` file count. -/
theorem status_reports_label_counts (fs : Fs) (st : Engine υ) (db : Db υ)
    (hconn : st.conn = some db)
    (hdirs : get_all_data_directories fs ≠ []) :
    ∃ r, status fs st = some r ∧
      r.total_applied = db.ledger.length ∧
      ∀ p ∈ get_all_data_directories fs,
        (p.2.name,
          (⟨db.ledger.countP (fun row => row.2 == p.2.name),
            (get_sql_files_in_dir p.2).length⟩ : DirStatus)) ∈
          r.directories := by
  simp only [status, hconn]
  rw [if_neg hdirs]
  refine ⟨_, rfl, rfl, ?_⟩
  intro p hp
  have hmem := List.mem_map_of_mem
    (fun q : Nat × DirEntry =>
      (q.2.name,
        (⟨(db.ledger.filter (fun row => row.2 == q.2.name)).length,
          (get_sql_files_in_dir q.2).length⟩ : DirStatus))) hp
  simpa [List.countP_eq_length_filter] using hmem

/-- Witness for C4's amended theorem: the claim's own concrete scenario —
`0_init` with 2 files both applied, `1_seed` with 3 files of which 1
applied — yields `applied/total` pairs `2/2` and `1/3` and
`total_applied = 3`. -/
theorem status_reports_label_counts_witness :
    ∃ r, status xFs xSt = some r ∧
      r.total_applied = 3 ∧
      ("0_init", (⟨2, 2⟩ : DirStatus)) ∈ r.directories ∧
      ("1_seed", (⟨1, 3⟩ : DirStatus)) ∈ r.directories := by
  obtain ⟨r, h1, h2, h3⟩ :=
    status_reports_label_counts xFs xSt xDb rfl (by decide)
  refine ⟨r, h1, h2, ?_, ?_⟩
  · exact h3 (0, xInit) (by decide)
  · exact h3 (1, xSeed) (by decide)

/-- Splitting off a run satisfying `p` followed by an element refuting
`p` determines `takeWhile` and `dropWhile`. -/
theorem takeWhile_all_append (p : Char → Bool) (ds rest : List Char)
    (x : Char) (hds : ∀ c ∈ ds, p c = true) (hx : p x = false) :
    (ds ++ x :: rest).takeWhile p = ds ∧
    (ds ++ x :: rest).dropWhile p = x :: rest := by
  induction ds with
  | nil => simp [List.takeWhile_cons, List.dropWhile_cons, hx]
  | cons c cs ih =>
    have hc : p c = true := hds c (List.mem_cons_self c cs)
    have ih2 := ih (fun d hd => hds d (List.mem_cons_of_mem c hd))
    simp [List.takeWhile_cons, List.dropWhile_cons, hc, ih2.1, ih2.2]

/-- The regex test `^(\d+)_` holds exactly on names of shape
"non-empty digit run, underscore, anything". -/
theorem matchesStepPat_iff (s : String) :
    matchesStepPat s = true ↔
      ∃ ds rest, s.data = ds ++ '_' :: rest ∧ ds ≠ [] ∧
        ∀ c ∈ ds, c.isDigit = true := by
  constructor
  · intro h
    unfold matchesStepPat at h
    rw [Bool.and_eq_true] at h
    obtain ⟨h1, h2⟩ := h
    rcases hd : s.data.dropWhile Char.isDigit with _ | ⟨c, tail⟩
    · rw [hd] at h2
      exact absurd h2 (by decide)
    · rw [hd] at h2
      have hc : c = '_' := by
        simpa using h2
      refine ⟨s.data.takeWhile Char.isDigit, tail, ?_, ?_, ?_⟩
      · conv_lhs => rw [← List.takeWhile_append_dropWhile Char.isDigit s.data]
        rw [hd, hc]
      · simpa using h1
      · intro c2 hc2
        simpa using List.mem_takeWhile_imp hc2
  · rintro ⟨ds, rest, hsplit, hne, hdig⟩
    have h := takeWhile_all_append Char.isDigit ds rest '_' hdig (by decide)
    unfold matchesStepPat
    rw [hsplit, h.1, h.2]
    simp [hne]

/-- On a name of shape "digit run, underscore, anything" the parsed step
number is the digit run's value. -/
theorem stepNumber_of_split (s : String) (ds rest : List Char)
    (hsplit : s.data = ds ++ '_' :: rest)
    (hdig : ∀ c ∈ ds, c.isDigit = true) :
    stepNumber s = digitsToNat ds := by
  unfold stepNumber
  rw [hsplit,
    (takeWhile_all_append Char.isDigit ds rest '_' hdig (by decide)).1]

/-- C8.  Directory scanning: a missing base path yields `[]`; the result
is sorted ascending by step number; and `(n, e)` is listed exactly when
`e` is an immediate subdirectory whose name is a non-empty digit run
followed by an underscore, with `n` the digit run parsed as an integer. -/
theorem scan_step_directories (fs : Fs) :
    get_all_data_directories (none : Fs) = [] ∧
    (get_all_data_directories fs).Sorted (fun a b => a.1 ≤ b.1) ∧
    ∀ n e, (n, e) ∈ get_all_data_directories fs ↔
      ∃ items, fs = some items ∧ e ∈ items ∧ e.isDir = true ∧
        ∃ ds rest, e.name.data = ds ++ '_' :: rest ∧ ds ≠ [] ∧
          (∀ c ∈ ds, c.isDigit = true) ∧ n = digitsToNat ds := by
  refine ⟨rfl, ?_, ?_⟩
  · cases fs with
    | none => simp [get_all_data_directories]
    | some items =>
      have hs := List.sorted_insertionSort dirRel
        ((items.filter (fun e => e.isDir && matchesStepPat e.name)).map
          (fun e => (stepNumber e.name, e)))
      exact List.Pairwise.imp
        (fun hab => by
          rcases hab with h | ⟨h, _⟩
          · exact le_of_lt h
          · exact le_of_eq h) hs
  · intro n e
    cases fs with
    | none => simp [get_all_data_directories]
    | some items =>
      simp only [get_all_data_directories]
      rw [List.mem_insertionSort]
      constructor
      · intro hmem
        rw [List.mem_map] at hmem
        obtain ⟨e2, he2, heq⟩ := hmem
        rw [List.mem_filter] at he2
        obtain ⟨he2items, hpred⟩ := he2
        obtain ⟨hn, he⟩ := Prod.mk.inj heq
        subst he
        rw [Bool.and_eq_true] at hpred
        obtain ⟨hdir, hpat⟩ := hpred
        obtain ⟨ds, rest, hsplit, hne, hdig⟩ :=
          (matchesStepPat_iff e2.name).mp hpat
        refine ⟨items, rfl, he2items, hdir, ds, rest, hsplit, hne, hdig, ?_⟩
        rw [← hn, stepNumber_of_split e2.name ds rest hsplit hdig]
      · rintro ⟨items2, hitems, heitems, hdir, ds, rest, hsplit, hne, hdig, hn⟩
        obtain rfl : items2 = items := by
          injection hitems with h
          exact h.symm
        rw [List.mem_map]
        refine ⟨e, ?_, ?_⟩
        · rw [List.mem_filter]
          refine ⟨heitems, ?_⟩
          rw [Bool.and_eq_true]
          exact ⟨hdir, (matchesStepPat_iff e.name).mpr ⟨ds, rest, hsplit, hne, hdig⟩⟩
        · rw [hn, ← stepNumber_of_split e.name ds rest hsplit hdig]

/-- Witness for C8: `10_x` and `2_y` are listed in numeric order `2_y`
first, and the listing is sorted by step number. -/
theorem scan_step_directories_witness :
    get_all_data_directories xFsOrd =
      [(2, ⟨"2_y", true, []⟩), (10, ⟨"10_x", true, []⟩)] ∧
    (get_all_data_directories xFsOrd).Sorted (fun a b => a.1 ≤ b.1) :=
  ⟨by decide, (scan_step_directories xFsOrd).2.1⟩

/-- C9.  `set` fails leaving the engine untouched when no connection is
open, when no step directories exist, or when the target is not among the
discovered step numbers; and whenever a connection is open, everything it
adds to the ledger is labelled by a directory visited before the `break`
— step number `≤ target`, at or before the first directory whose step
number equals the target. -/
theorem setStep_guards (exec : υ → String → Except SqlError υ) (fs : Fs)
    (k : Int) (st : Engine υ) :
    (st.conn = none → set exec fs k st = (false, st)) ∧
    (get_all_data_directories fs = [] → set exec fs k st = (false, st)) ∧
    ((∀ p ∈ get_all_data_directories fs, (p.1 : Int) ≠ k) →
      set exec fs k st = (false, st)) ∧
    (∀ db, st.conn = some db →
      ∃ t, ledgerOf (set exec fs k st).2 = db.ledger ++ t ∧
        ∀ x ∈ t, ∃ p, p ∈ upToTarget k (get_all_data_directories fs) ∧
          (p.1 : Int) ≤ k ∧ x.2 = p.2.name) := by
  refine ⟨?_, ?_, ?_, ?_⟩
  · intro h
    simp [set, h]
  · intro h
    rcases hc : st.conn with _ | db
    · simp [set, hc]
    · simp only [set, hc]
      rw [if_pos h]
  · intro h
    rcases hc : st.conn with _ | db
    · simp [set, hc]
    · simp only [set, hc]
      by_cases h1 : get_all_data_directories fs = []
      · rw [if_pos h1]
      · rw [if_neg h1, if_pos h]
  · intro db hconn
    simp only [set, hconn]
    by_cases h1 : get_all_data_directories fs = []
    · rw [if_pos h1]
      exact ⟨[], by simp [ledgerOf, hconn], by simp⟩
    · rw [if_neg h1]
      by_cases h2 : ∀ p ∈ get_all_data_directories fs, (p.1 : Int) ≠ k
      · rw [if_pos h2]
        exact ⟨[], by simp [ledgerOf, hconn], by simp⟩
      · rw [if_neg h2]
        obtain ⟨t, ht, hlab⟩ :=
          setLoop_ledger exec db.ledger k (get_all_data_directories fs) db
        exact ⟨t, by simpa [ledgerOf] using ht, hlab⟩

/-- Witness for C9: step 5 is not among `xFs`'s steps {0, 1}, so `set 5`
fails and leaves the engine exactly as it was. -/
theorem setStep_guards_witness :
    set xExec xFs 5 xSt = (false, xSt) :=
  (setStep_guards xExec xFs 5 xSt).2.2.1 (by decide)

/-- C10.  Non-atomic `reset` failure: with a connection open and step
directories present but no step-0 directory (or a step-0 directory with
no SQL files), `reset` returns `False` although it has already dropped
every user table and recreated an empty ledger — the database is wiped
while the call reports failure; `init` returns `True` in the same
situation. -/
theorem reset_wipes_then_fails (exec : υ → String → Except SqlError υ)
    (emptyU : υ) (fs : Fs) (st : Engine υ) (db : Db υ)
    (hconn : st.conn = some db)
    (hdirs : get_all_data_directories fs ≠ [])
    (h0 : (∀ p ∈ get_all_data_directories fs, p.1 ≠ 0) ∨
      (∃ p, (get_all_data_directories fs).find? (fun q => q.1 == 0) = some p ∧
        get_sql_files_in_dir p.2 = [])) :
    reset exec emptyU fs st =
      (false, ⟨some ⟨emptyU, []⟩⟩) ∧
    (init exec emptyU fs st).1 = true := by
  constructor
  · simp only [reset, hconn]
    rw [if_neg hdirs]
    rcases h0 with h0 | ⟨p, hp, hpf⟩
    · have hfind : (get_all_data_directories fs).find? (fun q => q.1 == 0) =
          none := by
        rw [List.find?_eq_none]
        intro x hx
        simpa using h0 x hx
      simp [hfind]
    · simp [hp, hpf]
  · simp only [init]
    rcases hf : (get_all_data_directories fs).find? (fun p => p.1 == 0) with
      _ | p
    · simp [hf]
    · simp [hf]

/-- Witness for C10: under a data directory holding only `1_seed`,
`reset` wipes the connected database and still returns `False`, while
`init` returns `True`. -/
theorem reset_wipes_then_fails_witness :
    reset xExec ([] : List String) xFsNo0 xSt =
      (false, ⟨some ⟨[], []⟩⟩) ∧
    (init xExec ([] : List String) xFsNo0 xSt).1 = true :=
  reset_wipes_then_fails xExec [] xFsNo0 xSt xDb rfl (by decide)
    (Or.inl (by decide))

end DbMig
